import Mathlib

/-!
# Verification of the gowebmention core against its specification

Shallow embedding of the webmention sender (endpoint discovery, mention
dispatch, update reconciliation) and receiver (HTTP ingress, worker loop,
media-handler registry) from the repository sources:

* `sender.go` — `Sender.Mention`, `Sender.Update`, `Sender.PastTargets`,
  `Sender.DiscoverEndpoint`, `scanForRelLink`;
* the receiver (`NewReceiver`, `WithMediaHandler`, `Handle`,
  `ProcessMentions`, `processMention`, `PlainHandler`, `HtmlHandler`,
  `findHref`) together with `errors.go`.

HTTP traffic is modelled as explicit "world" records holding the responses
the remote host would give; the Go standard-library pieces the code leans on
(`net/url` parsing and reference resolution, nil-map write panics) are
transcribed here so that the claims about them are meaningful.
-/

deriving instance DecidableEq for Except

namespace Webmention

/-! ## Character and list helpers (ASCII fragments of Go's `strings`) -/

def isAlphaCh (c : Char) : Bool := ('a' ≤ c && c ≤ 'z') || ('A' ≤ c && c ≤ 'Z')

def isDigitCh (c : Char) : Bool := '0' ≤ c && c ≤ '9'

/-- ASCII lower-casing of a character, as `strings.ToLower` does for ASCII
(the repository only compares ASCII tokens such as `webmention`, `http`). -/
def lowerCh (c : Char) : Char :=
  if 'A' ≤ c && c ≤ 'Z' then Char.ofNat (c.toNat + 32) else c

def lowerList (l : List Char) : List Char := l.map lowerCh

/-- `strings.ToLower`, restricted to ASCII. -/
def goToLower (s : String) : String := String.mk (lowerList s.toList)

/-- `strings.Cut(l, sep)` for a single-character separator:
`(before, after, found)` at the first occurrence. -/
def cutChar (sep : Char) : List Char → List Char × List Char × Bool
  | [] => ([], [], false)
  | c :: rest =>
    if c = sep then ([], rest, true)
    else
      let (b, a, f) := cutChar sep rest
      (c :: b, a, f)

/-- `strings.Split(l, sep)` for a single-character separator
(always returns at least one piece, keeps empty pieces). -/
def splitChar (sep : Char) : List Char → List (List Char)
  | [] => [[]]
  | c :: rest =>
    if c = sep then [] :: splitChar sep rest
    else
      match splitChar sep rest with
      | s :: ss => (c :: s) :: ss
      | [] => [[c]]

/-- `String.intercalate` at the character-list level. -/
def joinChar (sep : Char) : List (List Char) → List Char
  | [] => []
  | [s] => s
  | s :: ss => s ++ sep :: joinChar sep ss

/-- Prefix of `l` up to and including the last occurrence of `c`
(Go `base[:strings.LastIndex(base, c)+1]`, i.e. `[]` when absent);
computed by cutting the reversed list at the first occurrence. -/
def upToLastIncl (c : Char) (l : List Char) : List Char :=
  match cutChar c l.reverse with
  | (_, _, false) => []
  | (_, a, true) => (c :: a).reverse

/-- Everything after the last occurrence of `c`, `none` when `c` is absent
(Go `strings.LastIndex` tail). -/
def afterLast (c : Char) (l : List Char) : Option (List Char) :=
  match cutChar c l.reverse with
  | (_, _, false) => none
  | (b, _, true) => some b.reverse

/-- A `rel` attribute / parameter value carries a webmention relation iff one
of its space-separated tokens lower-cases to `webmention`.  Shared by the
`Link`-header loop and `scanForRelLink` in `sender.go`, which both run
`strings.Split(rel, " ")` and compare `strings.ToLower(relVal)`. -/
def relHasWebmention (rel : String) : Bool :=
  (splitChar ' ' rel.toList).any (fun rv => lowerList rv = "webmention".toList)

/-! ## Go `net/url`: URL records, `Parse`, `ResolveReference`

The sender and receiver manipulate `*url.URL` values.  `GoURL` mirrors the
fields the repository touches (`User` and `OmitHost` are never used by this
code and are omitted; `path` stores the escaped path, and percent-escape
validation is elided — every URL in the claims is escape-free). -/

structure GoURL where
  scheme   : String
  /-- `URL.Opaque` (named `opq` here). -/
  opq      : String
  host     : String
  /-- escaped path, `URL.EscapedPath()` -/
  path     : String
  forceQuery : Bool
  rawQuery : String
  fragment : String
deriving DecidableEq, Repr

instance : Inhabited GoURL := ⟨⟨"", "", "", "", false, "", ""⟩⟩

/-- `net/url.getScheme`: scan for a `:` delimited scheme. -/
def getSchemeGo (full : List Char) : List Char → Nat → Except String (List Char × List Char)
  | [], _ => .ok ([], full)
  | c :: rest, i =>
    if isAlphaCh c then getSchemeGo full rest (i + 1)
    else if isDigitCh c || c = '+' || c = '-' || c = '.' then
      if i = 0 then .ok ([], full) else getSchemeGo full rest (i + 1)
    else if c = ':' then
      if i = 0 then .error "missing protocol scheme"
      else .ok (full.take i, full.drop (i + 1))
    else .ok ([], full)

def getScheme (raw : List Char) : Except String (List Char × List Char) :=
  getSchemeGo raw raw 0

/-- `net/url.validOptionalPort`. -/
def validOptionalPort (p : List Char) : Bool :=
  match p with
  | [] => true
  | ':' :: rest => rest.all isDigitCh
  | _ => false

/-- `net/url.parseHost` (bracketed IPv6 and port validation; percent-escape
checks elided). -/
def parseHostGo (h : List Char) : Except String (List Char) :=
  match h with
  | '[' :: _ =>
    match afterLast ']' h with
    | none => .error "missing ']' in host"
    | some tail => if validOptionalPort tail then .ok h else .error "invalid port"
  | _ =>
    match afterLast ':' h with
    | none => .ok h
    | some tail =>
      if validOptionalPort (':' :: tail) then .ok h else .error "invalid port"

/-- `net/url.parseAuthority`: split the userinfo at the last `@`; the
repository never consults `URL.User`, so only the host is kept. -/
def parseAuthorityGo (a : List Char) : Except String (List Char) :=
  match afterLast '@' a with
  | none => parseHostGo a
  | some hostPart => parseHostGo hostPart

/-- `net/url.stringContainsCTLByte`. -/
def containsCTL (l : List Char) : Bool :=
  l.any (fun c => c.toNat < 32 || c.toNat = 127)

/-- `net/url.parse(rawURL, viaRequest=false)` after the fragment has been cut
off, transcribed clause by clause. -/
def goUrlParseNoFrag (raw : List Char) : Except String GoURL := do
  if containsCTL raw then
    .error "net/url: invalid control character in URL"
  else if raw = "*".toList then
    .ok { scheme := "", opq := "", host := "", path := "*",
          forceQuery := false, rawQuery := "", fragment := "" }
  else
    match getScheme raw with
    | .error e => .error e
    | .ok (schemeRaw, rest0) =>
    let scheme := lowerList schemeRaw
    -- trailing "?" with no other "?" sets ForceQuery, else cut at the first "?"
    let (rest, forceQuery, rawQuery) :=
      if rest0.getLast? = some '?' && !(rest0.dropLast.contains '?') then
        (rest0.dropLast, true, ([] : List Char))
      else
        let (r, q, _) := cutChar '?' rest0
        (r, false, q)
    if rest.head? ≠ some '/' && scheme ≠ [] then
      -- opaque form "scheme:rest"
      .ok { scheme := String.mk scheme, opq := String.mk rest, host := "",
            path := "", forceQuery := forceQuery,
            rawQuery := String.mk rawQuery, fragment := "" }
    else if rest.head? ≠ some '/' && (cutChar '/' rest).1.contains ':' then
      .error "first path segment in URL cannot contain colon"
    else if (scheme ≠ [] || !(rest.take 3 = "///".toList)) &&
        rest.take 2 = "//".toList then
      let afterSlashes := rest.drop 2
      let (authority, pathRest) :=
        match cutChar '/' afterSlashes with
        | (a, p, true) => (a, '/' :: p)
        | (a, _, false) => (a, [])
      match parseAuthorityGo authority with
      | .error e => .error e
      | .ok host =>
        .ok { scheme := String.mk scheme, opq := "", host := String.mk host,
              path := String.mk pathRest, forceQuery := forceQuery,
              rawQuery := String.mk rawQuery, fragment := "" }
    else
      .ok { scheme := String.mk scheme, opq := "", host := "",
            path := String.mk rest, forceQuery := forceQuery,
            rawQuery := String.mk rawQuery, fragment := "" }

/-- `net/url.Parse`: cut the fragment, parse the rest. -/
def goUrlParse (s : String) : Except String GoURL :=
  let (rest, frag, hasFrag) := cutChar '#' s.toList
  match goUrlParseNoFrag rest with
  | .error e => .error e
  | .ok u => .ok (if hasFrag then { u with fragment := String.mk frag } else u)

/-- One step of `net/url.resolvePath`'s segment loop: `.` is dropped, `..`
pops the last written segment, anything else is appended.  (The Go original
drives a string builder; `segWrite` is its segment-list shadow, shown
case-equal in the comments of `resolvePathList`.) -/
def segWrite (acc : List (List Char)) (elem : List Char) : List (List Char) :=
  if elem = ['.'] then acc
  else if elem = ['.', '.'] then acc.dropLast
  else acc ++ [elem]

/-- Strip one leading `/` of a doubled `//` (the final fixup in
`net/url.resolvePath`: "We wrote an initial '/', but we don't want two."). -/
def stripDoubleSlash : List Char → List Char
  | '/' :: '/' :: rest => '/' :: rest
  | l => l

/-- Last element of a segment list, `d` when empty (the `elem` left over
after `resolvePath`'s loop). -/
def lastD (d : List Char) : List (List Char) → List Char
  | [] => d
  | [a] => a
  | _ :: b :: t => lastD d (b :: t)

/-- `net/url.resolvePath(base, ref)` on character lists.  The builder in the
Go code writes an initial `/`, then the surviving segments separated by `/`
(the first written segment gets no separator), a trailing `/` when the final
raw segment is `.` or `..`, and finally collapses a leading `//`;  that is
exactly `/` ++ `joinChar '/'` of the surviving segments with the same two
fixups. -/
def resolvePathList (base ref : List Char) : List Char :=
  let full : List Char :=
    if ref = [] then base
    else if ref.head? ≠ some '/' then upToLastIncl '/' base ++ ref
    else ref
  if full = [] then []
  else
    let segs := splitChar '/' full
    let acc := segs.foldl segWrite []
    let lastSeg := lastD [] segs
    stripDoubleSlash ('/' :: joinChar '/' acc ++
      (if lastSeg = ['.'] ∨ lastSeg = ['.', '.'] then ['/'] else []))

def resolvePath (base ref : String) : String :=
  String.mk (resolvePathList base.toList ref.toList)

/-- `net/url.URL.ResolveReference` (the `User` field, unused by the
repository, is omitted). -/
def resolveReference (u ref : GoURL) : GoURL :=
  let r0 := { ref with scheme := if ref.scheme = "" then u.scheme else ref.scheme }
  if ref.scheme ≠ "" || ref.host ≠ "" then
    { r0 with path := resolvePath ref.path "" }
  else if ref.opq ≠ "" then
    { r0 with host := "", path := "" }
  else
    let r1 :=
      if ref.path = "" && !ref.forceQuery && ref.rawQuery = "" then
        { r0 with
            rawQuery := u.rawQuery,
            fragment := if ref.fragment = "" then u.fragment else ref.fragment }
      else r0
    { r1 with host := u.host, path := resolvePath u.path ref.path }

/-- `url.URL.String()` for the fields this model carries. -/
def GoURL.render (u : GoURL) : String :=
  (if u.scheme ≠ "" then u.scheme ++ ":" else "") ++
  (if u.opq ≠ "" then u.opq
   else (if u.host ≠ "" then "//" ++ u.host else "") ++ u.path) ++
  (if u.forceQuery || u.rawQuery ≠ "" then "?" ++ u.rawQuery else "") ++
  (if u.fragment ≠ "" then "#" ++ u.fragment else "")

/-! ## Parsed HTML documents (`golang.org/x/net/html` node trees)

`html.Parse` is an external library; the scanner in `sender.go` and the
`HtmlHandler` walk the node tree it produces, so the model takes the parsed
tree as input. -/

inductive HNodeType where
  | document | element | text | comment | doctype
deriving DecidableEq, Repr

structure HAttr where
  key : String
  val : String
deriving DecidableEq, Repr

inductive HNode where
  | mk (type : HNodeType) (data : String) (attrs : List HAttr) (children : List HNode)
deriving Repr

def HNode.type : HNode → HNodeType
  | .mk t _ _ _ => t

def HNode.data : HNode → String
  | .mk _ d _ _ => d

def HNode.attrs : HNode → List HAttr
  | .mk _ _ a _ => a

def HNode.children : HNode → List HNode
  | .mk _ _ _ c => c

/-! ## `sender.go`: `scanForRelLink` and the discovery traversal -/

/-- The attribute loop of `scanForRelLink`: returns
`(hasRelVal, hasHrefVal, href)`. -/
def scanAttrs : List HAttr → Bool → Bool → String → Bool × Bool × String
  | [], hasRel, hasHref, href => (hasRel, hasHref, href)
  | a :: rest, hasRel, hasHref, href =>
    if !hasRel && a.key = "rel" then
      scanAttrs rest (relHasWebmention a.val) hasHref href
    else if a.key = "href" then
      scanAttrs rest hasRel true a.val
    else
      scanAttrs rest hasRel hasHref href

/-- Result of `scanForRelLink`: a parsed URL, `ErrNoRelWebmention`, or the
`url.Parse` failure (which `DiscoverEndpoint` turns into
`ErrInvalidRelWebmention`). -/
inductive ScanRes where
  | ok (u : GoURL)
  | noRel
  | badURL (msg : String)
deriving DecidableEq, Repr

/-- `sender.go scanForRelLink(node)`. -/
def scanForRelLink (n : HNode) : ScanRes :=
  let (hasRel, hasHref, href) := scanAttrs n.attrs false false ""
  if hasRel && hasHref then
    match goUrlParse href with
    | .ok u => .ok u
    | .error e => .badURL e
  else .noRel

/-- The closure state of `DiscoverEndpoint`'s `traverseHtml`
(`firstLinkRel`, `firstARel`, `traverseErr`). -/
structure TravAcc where
  firstLinkRel : Option GoURL
  firstARel    : Option GoURL
  traverseErr  : Option String
deriving DecidableEq, Repr

mutual

/-- `traverseHtml` in `DiscoverEndpoint`: depth-first walk; the returned
`Bool` is the Go function's "keep traversing" result.  The walk stops at the
first `link`/`a` element whose `scanForRelLink` is not `ErrNoRelWebmention`.
-/
def traverseHtml (acc : TravAcc) (n : HNode) : TravAcc × Bool :=
  match n with
  | .mk ty dat _ children =>
    if ty = .element ∧ dat = "link" then
      match scanForRelLink n with
      | .ok u => ({ acc with firstLinkRel := some u }, false)
      | .badURL e => ({ acc with traverseErr := some e }, false)
      | .noRel => traverseChildren acc children
    else if ty = .element ∧ dat = "a" then
      match scanForRelLink n with
      | .ok u => ({ acc with firstARel := some u }, false)
      | .badURL e => ({ acc with traverseErr := some e }, false)
      | .noRel => traverseChildren acc children
    else
      traverseChildren acc children

def traverseChildren (acc : TravAcc) : List HNode → TravAcc × Bool
  | [] => (acc, true)
  | c :: cs =>
    match traverseHtml acc c with
    | (acc', true) => traverseChildren acc' cs
    | (acc', false) => (acc', false)

end

/-- A non-`noRel` scan outcome: what the first hit of the traversal carries.
-/
inductive HitRes where
  | okU (u : GoURL)
  | bad (e : String)
deriving DecidableEq, Repr

mutual

/-- Specification view of the traversal: the first element in depth-first
pre-order whose tag is `link` or `a` and whose `scanForRelLink` is not
`ErrNoRelWebmention`, together with that scan result. -/
def findFirstHit (n : HNode) : Option (String × HitRes) :=
  match n with
  | .mk ty dat _ children =>
    if ty = .element ∧ (dat = "link" ∨ dat = "a") then
      match scanForRelLink n with
      | .noRel => findFirstHitList children
      | .ok u => some (dat, .okU u)
      | .badURL e => some (dat, .bad e)
    else
      findFirstHitList children

def findFirstHitList : List HNode → Option (String × HitRes)
  | [] => none
  | c :: cs =>
    match findFirstHit c with
    | some h => some h
    | none => findFirstHitList cs

end

/-! ## `sender.go`: `DiscoverEndpoint` over an HTTP world -/

/-- One entry of `linkheader.ParseMultiple`'s output (the external header
parser): a URL string and the `rel` parameter value. -/
structure LinkHeader where
  url : String
  rel : String
deriving DecidableEq, Repr

/-- Response to the `HEAD target` request.  `finalURL` is the URL reached
after the HTTP client followed redirects (`resp.Request.URL`); the code
under verification never reads it. -/
structure HeadResponse where
  status   : Nat
  links    : List LinkHeader
  finalURL : GoURL
deriving Repr

/-- Response to the `GET target` request, with the body already parsed by
`html.Parse`. -/
structure GetResponse where
  status : Nat
  doc    : HNode
deriving Repr

structure DiscoveryWorld where
  head : HeadResponse
  get  : GetResponse
deriving Repr

inductive DiscoverErr where
  /-- "endpoint discovery: head returned %s" -/
  | headStatus (code : Nat)
  /-- `ErrInvalidRelWebmention` wrapping a `url.Parse` failure in the Link header -/
  | invalidLinkHeader (msg : String)
  /-- "endpoint discovery: get returned %s" -/
  | getStatus (code : Nat)
  /-- `ErrInvalidRelWebmention` wrapping a failure in a `<link>` or `<a>` element -/
  | invalidInDoc (msg : String)
  /-- `ErrNoEndpointFound` -/
  | noEndpointFound
deriving DecidableEq, Repr

/-- The `Link`-header loop of `DiscoverEndpoint`: every header entry whose
`rel` tokens contain `webmention` overwrites `foundLink` (the `break` only
leaves the inner token loop), so the last match wins. -/
def foundLinkOf (links : List LinkHeader) : String :=
  links.foldl (fun f l => if relHasWebmention l.rel then l.url else f) ""

/-- `Sender.DiscoverEndpoint(target)`, with the two HTTP exchanges supplied
by `w`.  Transport failures are not modelled (the world always responds);
body draining affects no result. -/
def discoverEndpoint (w : DiscoveryWorld) (target : GoURL) : Except DiscoverErr GoURL :=
  if w.head.status < 200 ∨ w.head.status ≥ 300 then
    .error (.headStatus w.head.status)
  else
    let foundLink := foundLinkOf w.head.links
    if foundLink ≠ "" then
      match goUrlParse foundLink with
      | .error e => .error (.invalidLinkHeader e)
      | .ok ep => .ok (resolveReference target ep)
    else if w.get.status < 200 ∨ w.get.status ≥ 300 then
      .error (.getStatus w.get.status)
    else
      let (acc, _) := traverseHtml ⟨none, none, none⟩ w.get.doc
      match acc.traverseErr with
      | some e => .error (.invalidInDoc e)
      | none =>
        match acc.firstLinkRel with
        | some u => .ok (resolveReference target u)
        | none =>
          match acc.firstARel with
          | some u => .ok (resolveReference target u)
          | none => .error .noEndpointFound

/-! ## Receiver: data model and ingress (`Handle`) -/

/-- The three `Status` constants; `Status` is a string type in the source. -/
def statusLink : String := "source links to target"

def statusNoLink : String := "source does not link to target"

def statusDeleted : String := "source itself got deleted"

/-- `Mention{Source, Target URL; Status Status}`. -/
structure Mention where
  source : GoURL
  target : GoURL
  status : String
deriving DecidableEq, Repr

/-- An ingress HTTP request, after the HTTP server handed it to `Handle`:
the method, whether `r.ParseForm()` succeeds, and the decoded `r.PostForm`
multimap. -/
structure HandleRequest where
  method      : String
  parseFormOk : Bool
  form        : List (String × List String)
deriving Repr

/-- `r.PostForm[key]` with its `ok` flag. -/
def formGet (form : List (String × List String)) (key : String) : Option (List String) :=
  (form.find? (·.1 = key)).map (·.2)

/-- Receiver configuration relevant to `Handle`: the `targetAccepts`
callback and the queue capacity (`defaultRequestQueueSize = 100`, or the
`WithQueueSize` override). -/
structure ReceiverCfg where
  targetAccepts : GoURL → GoURL → Bool
  queueCap      : Nat

/-- The errors `Handle` returns, mapped by `WebmentionEndpoint` through
`ErrorResponder.RespondError` (errors.go); `accepted` is the success path.
-/
inductive HandleOutcome where
  | methodNotAllowed
  | badRequest (msg : String)
  | tooManyRequests
  | accepted
deriving DecidableEq, Repr

/-- The HTTP status written for each outcome: 405/400/429 by the
`RespondError` implementations in `errors.go`, 202 by `Handle` itself. -/
def httpStatusOf : HandleOutcome → Nat
  | .methodNotAllowed => 405
  | .badRequest _ => 400
  | .tooManyRequests => 429
  | .accepted => 202

/-- The synchronous validation chain of `Handle`, up to (excluding) the
enqueue: either a rejecting outcome or the parsed source and target. -/
def handleValidate (cfg : ReceiverCfg) (req : HandleRequest) :
    Except HandleOutcome (GoURL × GoURL) :=
  if req.method ≠ "POST" then .error .methodNotAllowed
  else if !req.parseFormOk then .error (.badRequest "form parse error")
  else
    match formGet req.form "source" with
    | none => .error (.badRequest "missing form value: source")
    | some source =>
      match formGet req.form "target" with
      | none => .error (.badRequest "missing form value: target")
      | some target =>
        if source.length ≠ 1 then .error (.badRequest "malformed source argument")
        else if target.length ≠ 1 then .error (.badRequest "malformed target argument")
        -- below, `source.headD ""` and `target.headD ""` are Go's
        -- `source[0]` and `target[0]`
        else if source.headD "" = target.headD "" then
          .error (.badRequest "target must be different from source")
        else
            match goUrlParse (source.headD "") with
            | .error _ => .error (.badRequest "source url is malformed")
            | .ok sourceURL =>
              match goUrlParse (target.headD "") with
              | .error _ => .error (.badRequest "target url is malformed")
              | .ok targetURL =>
                if !(sourceURL.scheme = "http" || sourceURL.scheme = "https") then
                  .error (.badRequest "source url scheme not supported (supported schemes are: http, https)")
                else if !(targetURL.scheme = "http" || targetURL.scheme = "https") then
                  .error (.badRequest "target url scheme not supported (supported schemes are: http, https)")
                else if !cfg.targetAccepts sourceURL targetURL then
                  .error (.badRequest "target does not accept webmentions")
                else .ok (sourceURL, targetURL)

/-- `Receiver.Handle`: validation, then the non-blocking enqueue
(`select { case enqueue <- Mention{...}: default: return TooManyRequests() }`
on a channel with buffer `queueCap`), then `202 Accepted`.  Returns the
outcome and the new queue content. -/
def handle (cfg : ReceiverCfg) (req : HandleRequest) (queue : List Mention) :
    HandleOutcome × List Mention :=
  match handleValidate cfg req with
  | .error o => (o, queue)
  | .ok (sourceURL, targetURL) =>
    if queue.length < cfg.queueCap then
      (.accepted, queue ++ [⟨sourceURL, targetURL, statusNoLink⟩])
    else
      (.tooManyRequests, queue)

/-! ## Receiver: media-handler registry

`Receiver.mediaHandler` is a Go `map[string]MediaHandler`.  A map has no
iteration order: the registry is modelled as a key-unique association list
whose list order is bookkeeping only, and every statement about iteration
quantifies over `admissibleOrder`, the permutations of the key set.  For
statements about the registry's structure the handlers are named by tags. -/

inductive HandlerTag where
  /-- `receiver.HtmlHandler` -/
  | htmlH
  /-- `receiver.PlainHandler` -/
  | plainH
  /-- a user-registered handler, identified by a number -/
  | userH (n : Nat)
deriving DecidableEq, Repr

/-- Go map assignment `m[k] = v`: replace the value of an existing key,
otherwise add the entry. -/
def mapAssign (m : List (String × α)) (k : String) (v : α) : List (String × α) :=
  if m.any (·.1 = k) then m.map (fun p => if p.1 = k then (k, v) else p)
  else m ++ [(k, v)]

/-- Go `delete(m, k)`. -/
def mapDelete (m : List (String × α)) (k : String) : List (String × α) :=
  m.filter (·.1 ≠ k)

/-- Go map lookup `m[k]` with its `ok` flag. -/
def mapLookup (m : List (String × α)) (k : String) : Option α :=
  (m.find? (·.1 = k)).map (·.2)

def mapKeys (m : List (String × α)) : List String := m.map (·.1)

/-- The registry built in `NewReceiver`:
`map[string]MediaHandler{"text/html": receiver.HtmlHandler, "text/plain": receiver.PlainHandler}`. -/
def defaultMediaHandlers : List (String × HandlerTag) :=
  [("text/html", .htmlH), ("text/plain", .plainH)]

/-- `WithMediaHandler(mime, handler)`: `nil` (`none`) deletes, otherwise
assigns. -/
def withMediaHandler (mime : String) (handler : Option HandlerTag)
    (m : List (String × HandlerTag)) : List (String × HandlerTag) :=
  match handler with
  | none => mapDelete m mime
  | some h => mapAssign m mime h

/-- A possible iteration order of the Go map `m`: any permutation of its
key set (`for mime := range m` may yield the keys in any order). -/
@[reducible]
def admissibleOrder (m : List (String × α)) (ord : List String) : Prop :=
  (mapKeys m).Perm ord

/-- The `Accept` values accumulated by
`for mime := range receiver.mediaHandler { req.Header.Add("Accept", mime) }`
when the range yields `ord`. -/
def buildAcceptHeader (ord : List String) : List String :=
  ord.foldl (fun hs mime => hs ++ [mime]) []

/-- Modelled from the spec (not present in the code): the `MediaHandler
record` of §3 carries a weight `q ∈ [0,1]`, and §3/§4.6 render the `Accept`
header by concatenating the registered media types in insertion order,
appending `;q=<q>` except when q = 1.  `q` is given as a decimal string. -/
def specAcceptRender (entries : List (String × String)) : List String :=
  entries.map (fun e => if e.2 = "1" then e.1 else e.1 ++ ";q=" ++ e.2)

/-- Modelled from the spec: the default registry of §3 with its weights,
`{text/html, q=1.0}` then `{text/plain, q=0.1}`. -/
def specDefaultEntries : List (String × String) :=
  [("text/html", "1"), ("text/plain", "0.1")]

/-! ## Receiver: the worker (`processMention`) -/

/-- Response to the worker's `HEAD source` request: the status code and the
raw `Content-Type` header value. -/
structure WorkerHeadResponse where
  status      : Nat
  contentType : String
deriving Repr

/-- The worker's world: the `HEAD` response and the `GET` body (of type `σ`,
handed to the chosen media handler).  Transport failures are not modelled;
the `GET` status is never inspected by the code. -/
structure WorkerWorld (σ : Type) where
  head    : WorkerHeadResponse
  getBody : σ

/-- Drop ASCII blanks from both ends (used by the `mime` model below). -/
def trimSpaces (l : List Char) : List Char :=
  ((l.dropWhile (fun c => c = ' ' ∨ c = '\t')).reverse.dropWhile
    (fun c => c = ' ' ∨ c = '\t')).reverse

/-- Model of Go's `mime.ParseMediaType` (external stdlib), restricted to
what `processMention` uses: the media type before any `;` parameters,
trimmed and lower-cased; empty input is an error. -/
def parseMediaType (v : String) : Except String String :=
  let t := String.mk (lowerList (trimSpaces ((splitChar ';' v.toList).headD [])))
  if t = "" then .error "mime: no media type" else .ok t

/-- The errors `processMention` returns (handed to `Report` by
`ProcessMentions`). -/
inductive WorkerErr where
  /-- `ErrSourceNotFound` -/
  | sourceNotFound
  /-- `mime.ParseMediaType` failure -/
  | mediaTypeParse (msg : String)
  /-- "no mime handler registered for: %s" -/
  | noHandler (mime : String)
  /-- an error returned by the media handler -/
  | handlerErr (msg : String)
deriving DecidableEq, Repr

/-- A `MediaHandler func(sourceData io.Reader, target URL) (Status, error)`. -/
def MHandler (σ : Type) : Type := σ → GoURL → Except String String

/-- Everything observable about one `processMention` run: the mention fanned
out to the notifier loop (`none` when no notifier is invoked), whether the
`GET source` request was issued, and the error returned to
`ProcessMentions`/`Report`. -/
structure ProcOutput where
  fanout    : Option Mention
  getIssued : Bool
  ret       : Option WorkerErr
deriving DecidableEq, Repr

/-- `Receiver.processMention(mention)`, transcribed from the source:
410 check, then the `< 200 || > 300` range check, `mime.ParseMediaType` of
the `HEAD` `Content-Type`, handler lookup, `GET`, handler run, fanout. -/
def processMention (registry : List (String × MHandler σ)) (w : WorkerWorld σ)
    (m : Mention) : ProcOutput :=
  if w.head.status = 410 then
    { fanout := some { m with status := statusDeleted }, getIssued := false, ret := none }
  else if w.head.status < 200 ∨ w.head.status > 300 then
    { fanout := none, getIssued := false, ret := some .sourceNotFound }
  else
    match parseMediaType w.head.contentType with
    | .error e => { fanout := none, getIssued := false, ret := some (.mediaTypeParse e) }
    | .ok mime =>
      match mapLookup registry mime with
      | none => { fanout := none, getIssued := false, ret := some (.noHandler mime) }
      | some handler =>
        match handler w.getBody m.target with
        | .error e => { fanout := none, getIssued := true, ret := some (.handlerErr e) }
        | .ok handlerStatus =>
          { fanout := some { m with status := handlerStatus }, getIssued := true, ret := none }

/-- The notifier fan-out loop
(`for _, notifier := range receiver.notifiers { notifier.Receive(mention) }`):
each registered notifier receives exactly the fanned-out mention, in
registration order.  Notifiers are named by values of `ν`. -/
def notifyAll (notifiers : List ν) (out : ProcOutput) : List (ν × Mention) :=
  match out.fanout with
  | none => []
  | some m => notifiers.map (fun n => (n, m))

/-! ## Receiver: the default media handlers

The `GET` body reaches the handlers as a byte stream; `PlainHandler` reads
it as a string and `HtmlHandler` parses it with the external `html.Parse`.
`SourceBody` carries both views, the parse result being supplied by the
world. -/

structure SourceBody where
  raw : String
  /-- result of `html.Parse(raw)` -/
  dom : Except String HNode

/-- `strings.HasPrefix` at the character level (local helper for
`containsSub`). -/
def startsWithList : List Char → List Char → Bool
  | _, [] => true
  | [], _ :: _ => false
  | c :: cs, p :: ps => c = p && startsWithList cs ps

/-- `strings.Contains(l, sub)`. -/
def containsSub (l sub : List Char) : Bool :=
  match l with
  | [] => sub = []
  | _ :: rest => startsWithList l sub || containsSub rest sub

/-- `Receiver.PlainHandler`: `StatusLink` iff the body contains
`target.String()` as a substring. -/
def plainHandler : MHandler SourceBody := fun body target =>
  if containsSub body.raw.toList target.render.toList then .ok statusLink
  else .ok statusNoLink

/-- `findHref(node)`: the value of the first `href` attribute, `""` when
absent. -/
def findHref (attrs : List HAttr) : String :=
  match attrs.find? (·.key = "href") with
  | some a => a.val
  | none => ""

mutual

/-- The traversal of `Receiver.HtmlHandler`: an `a`/`img`/`video` element
matches when its first `href` equals the target string case-insensitively;
non-matching elements still descend into their children. -/
def htmlLinksTo (t : String) (n : HNode) : Bool :=
  match n with
  | .mk ty dat attrs children =>
    if ty = .element && (dat = "a" || dat = "img" || dat = "video") &&
        goToLower (findHref attrs) = goToLower t then
      true
    else
      htmlLinksToList t children

def htmlLinksToList (t : String) : List HNode → Bool
  | [] => false
  | c :: cs => htmlLinksTo t c || htmlLinksToList t cs

end

/-- `Receiver.HtmlHandler`: parse failure is returned as an error, else
`StatusLink`/`StatusNoLink` from the traversal. -/
def htmlHandler : MHandler SourceBody := fun body target =>
  match body.dom with
  | .error e => .error e
  | .ok doc =>
    if htmlLinksTo target.render doc then .ok statusLink else .ok statusNoLink

/-- The default registry with the actual handler functions. -/
def defaultRegistryFns : List (String × MHandler SourceBody) :=
  [("text/html", htmlHandler), ("text/plain", plainHandler)]

/-! ## Sender: `Mention` and `PastTargets` -/

/-- Response to the `PostForm` submission: only the status code is
inspected by `Mention` (plus the `Location` header, used only for logging).
-/
structure PostResponse where
  status : Nat
deriving DecidableEq, Repr

/-- The world of one `Sender.Mention` call: the outcome of
`DiscoverEndpoint` and of `HttpClient.PostForm`.  `postForm = none` models a
transport-level failure, where Go returns a non-nil error and a nil
response. -/
structure MentionWorld where
  discover : Except DiscoverErr GoURL
  postForm : Option PostResponse

inductive MentionResult where
  /-- `Mention` returns nil -/
  | ok
  /-- "mention: %w" wrapping the discovery error -/
  | discoverFailed (e : DiscoverErr)
  /-- "mention: endpoint: %s: post form returned: %s" -/
  | sendFailed (status : Nat)
  /-- nil-pointer dereference: `PostForm`'s error is never checked and
  `resp.StatusCode` is read unconditionally -/
  | panicked
deriving DecidableEq, Repr

/-- `Sender.Mention(source, target)`: discovery, then `PostForm`; the
`PostForm` error result is discarded and `resp.StatusCode` is read
unconditionally, so a transport failure (nil response) panics. -/
def senderMention (w : MentionWorld) : MentionResult :=
  match w.discover with
  | .error e => .discoverFailed e
  | .ok _ =>
    match w.postForm with
    | none => .panicked
    | some resp =>
      if resp.status < 200 || resp.status ≥ 300 then .sendFailed resp.status
      else .ok

/-- A Go runtime panic relevant to `Sender.PastTargets`. -/
inductive GoPanic where
  /-- assignment to entry in nil map -/
  | nilMapWrite
deriving DecidableEq, Repr

/-- One write `m[k] = struct{}{}` on a possibly-nil Go map (`none` is the
nil map, whose zero value the named return `pastTargets` never leaves):
writing to the nil map panics. -/
def goSetInsert (m : Option (List GoURL)) (k : GoURL) :
    Except GoPanic (Option (List GoURL)) :=
  match m with
  | none => .error .nilMapWrite
  | some l => .ok (some (if l.contains k then l else l ++ [k]))

/-- `Sender.PastTargets(source)`: the persister's list is written into the
named return `pastTargets map[URL]struct{}`, which is never allocated and
stays the nil map; the first write panics.  (Keys are additionally `*url.URL`
pointers in the source, compared by identity; this model uses URL values,
which does not affect the panic.) -/
def pastTargetsRun (persisted : List GoURL) : Except GoPanic (List GoURL) := do
  let finalMap ← persisted.foldlM goSetInsert (none : Option (List GoURL))
  pure (finalMap.getD [])

/-! ## Helper lemmas -/

theorem splitChar_ne_nil (sep : Char) (l : List Char) : splitChar sep l ≠ [] := by
  cases l with
  | nil => simp [splitChar]
  | cons c rest =>
    simp only [splitChar]
    split
    · simp
    · rcases h : splitChar sep rest with _ | ⟨s, ss⟩ <;> simp

theorem joinChar_splitChar (sep : Char) (l : List Char) :
    joinChar sep (splitChar sep l) = l := by
  induction l with
  | nil => rfl
  | cons c rest ih =>
    simp only [splitChar]
    split
    · rename_i hc
      rcases h : splitChar sep rest with _ | ⟨s, ss⟩
      · exact absurd h (splitChar_ne_nil sep rest)
      · rw [h] at ih
        cases ss with
        | nil => simpa [joinChar, hc] using ih
        | cons a t => simpa [joinChar, hc] using ih
    · rcases h : splitChar sep rest with _ | ⟨s, ss⟩
      · exact absurd h (splitChar_ne_nil sep rest)
      · rw [h] at ih
        cases ss with
        | nil => simpa [joinChar] using ih
        | cons a t => simpa [joinChar] using ih

theorem foldl_segWrite_no_dots (segs : List (List Char)) (acc : List (List Char))
    (h : ∀ s ∈ segs, s ≠ ['.'] ∧ s ≠ ['.', '.']) :
    segs.foldl segWrite acc = acc ++ segs := by
  induction segs generalizing acc with
  | nil => simp
  | cons s rest ih =>
    have hs := h s (by simp)
    have hrec := ih (acc ++ [s]) (fun x hx => h x (by simp [hx]))
    simp only [List.foldl_cons, segWrite, if_neg hs.1, if_neg hs.2]
    rw [hrec]
    simp

theorem lastD_mem (l : List (List Char)) (hne : l ≠ []) (d : List Char) :
    lastD d l ∈ l := by
  induction l with
  | nil => exact absurd rfl hne
  | cons a t ih =>
    cases t with
    | nil => simp [lastD]
    | cons b u => simpa [lastD] using List.mem_cons_of_mem a (ih (by simp))

/-- Resolving the empty reference path leaves a path unchanged when it is
empty or absolute without `.`/`..` segments (Go's `resolvePath` also cleans
dot segments of the base). -/
theorem resolvePathList_self (p : List Char)
    (h : p = [] ∨ (p.head? = some '/' ∧
      ∀ s ∈ splitChar '/' p, s ≠ ['.'] ∧ s ≠ ['.', '.'])) :
    resolvePathList p [] = p := by
  rcases h with rfl | ⟨hhead, hdots⟩
  · rfl
  · cases p with
    | nil => rfl
    | cons c p' =>
      have hc : c = '/' := by simpa using hhead
      subst hc
      have hfold : (splitChar '/' ('/' :: p')).foldl segWrite [] =
          splitChar '/' ('/' :: p') := by
        rw [foldl_segWrite_no_dots _ _ hdots]
        simp
      have hlast := hdots _ (lastD_mem _ (splitChar_ne_nil _ _) [])
      have hjoin := joinChar_splitChar '/' ('/' :: p')
      have hbody : resolvePathList ('/' :: p') [] =
          stripDoubleSlash ('/' :: joinChar '/'
              ((splitChar '/' ('/' :: p')).foldl segWrite []) ++
            (if lastD [] (splitChar '/' ('/' :: p')) = ['.'] ∨
                lastD [] (splitChar '/' ('/' :: p')) = ['.', '.'] then ['/']
             else [])) := by
        simp [resolvePathList]
      rw [hbody, hfold, hjoin, if_neg (by push_neg; exact hlast)]
      simp [stripDoubleSlash]

/-- `net/url.ResolveReference` with the empty reference: scheme, host,
query and fragment come from the base, the path is the base path after
dot-segment cleaning, and `Opaque`/`ForceQuery` are taken from the (empty)
reference. -/
theorem resolveReference_empty (u : GoURL) :
    resolveReference u ⟨"", "", "", "", false, "", ""⟩ =
      ⟨u.scheme, "", u.host, resolvePath u.path "", false, u.rawQuery, u.fragment⟩ := by
  simp [resolveReference]

/-- Applying one traversal hit to the accumulator: what `traverseHtml` does
at the first element whose scan is not `ErrNoRelWebmention`. -/
def applyHit (acc : TravAcc) : String × HitRes → TravAcc × Bool
  | (dat, .okU u) =>
    if dat = "link" then ({ acc with firstLinkRel := some u }, false)
    else ({ acc with firstARel := some u }, false)
  | (_, .bad e) => ({ acc with traverseErr := some e }, false)

mutual

/-- The traversal of `DiscoverEndpoint` stops at, and applies, the first
pre-order hit. -/
theorem traverseHtml_firstHit (acc : TravAcc) (n : HNode) :
    traverseHtml acc n =
      match findFirstHit n with
      | none => (acc, true)
      | some h => applyHit acc h := by
  match n with
  | .mk ty dat attrs children =>
    rw [traverseHtml, findFirstHit]
    by_cases hl : ty = .element ∧ dat = "link"
    · rw [if_pos hl, if_pos ⟨hl.1, Or.inl hl.2⟩]
      rcases hs : scanForRelLink (.mk ty dat attrs children) with u | _ | e
      · simp [applyHit, hl.2]
      · exact traverseChildren_firstHit acc children
      · simp [applyHit]
    · rw [if_neg hl]
      by_cases ha : ty = .element ∧ dat = "a"
      · rw [if_pos ha, if_pos ⟨ha.1, Or.inr ha.2⟩]
        rcases hs : scanForRelLink (.mk ty dat attrs children) with u | _ | e
        · have hda : dat ≠ "link" := fun hd => hl ⟨ha.1, hd⟩
          simp [applyHit, hda]
        · exact traverseChildren_firstHit acc children
        · simp [applyHit]
      · rw [if_neg ha, if_neg (by
          intro hcond
          obtain ⟨h1, h2⟩ := hcond
          cases h2 with
          | inl h2 => exact hl ⟨h1, h2⟩
          | inr h2 => exact ha ⟨h1, h2⟩)]
        exact traverseChildren_firstHit acc children

theorem traverseChildren_firstHit (acc : TravAcc) (ns : List HNode) :
    traverseChildren acc ns =
      match findFirstHitList ns with
      | none => (acc, true)
      | some h => applyHit acc h := by
  match ns with
  | [] => rfl
  | c :: cs =>
    rw [traverseChildren, findFirstHitList]
    have hc := traverseHtml_firstHit acc c
    rcases hf : findFirstHit c with _ | ⟨dat, hr⟩
    · rw [hf] at hc
      simp only at hc
      rw [hc]
      exact traverseChildren_firstHit acc cs
    · rw [hf] at hc
      simp only at hc
      rw [hc]
      rcases hr with u | e
      · simp only [applyHit]
        by_cases hd : dat = "link"
        · rw [if_pos hd]
        · rw [if_neg hd]
      · rfl

end

/-- When the `HEAD` succeeds without a webmention `Link` header and the `GET`
succeeds, `DiscoverEndpoint` returns the resolution (against its `target`
argument) of the URL of the **first** pre-order `link`-or-`a` hit —
whichever of the two kinds comes first. -/
theorem discover_firstHit (w : DiscoveryWorld) (t : GoURL) (dat : String) (u : GoURL)
    (hh1 : 200 ≤ w.head.status) (hh2 : w.head.status < 300)
    (hlink : foundLinkOf w.head.links = "")
    (hg1 : 200 ≤ w.get.status) (hg2 : w.get.status < 300)
    (hf : findFirstHit w.get.doc = some (dat, .okU u)) :
    discoverEndpoint w t = .ok (resolveReference t u) := by
  have htrav := traverseHtml_firstHit ⟨none, none, none⟩ w.get.doc
  rw [hf] at htrav
  simp only at htrav
  simp only [discoverEndpoint]
  rw [if_neg (by omega), if_neg (by simp [hlink]), if_neg (by omega), htrav]
  simp only [applyHit]
  by_cases hd : dat = "link"
  · rw [if_pos hd]
  · rw [if_neg hd]

/-- Same configuration, but the webmention `Link` header is present: the
header is resolved against the `target` argument. -/
theorem discover_linkHeader (w : DiscoveryWorld) (t : GoURL) (ep : GoURL)
    (hh1 : 200 ≤ w.head.status) (hh2 : w.head.status < 300)
    (hne : foundLinkOf w.head.links ≠ "")
    (hp : goUrlParse (foundLinkOf w.head.links) = .ok ep) :
    discoverEndpoint w t = .ok (resolveReference t ep) := by
  simp only [discoverEndpoint]
  rw [if_neg (by omega), if_pos hne, hp]

theorem eq_singleton_of_length_one (l : List String) (h : ¬l.length ≠ 1) :
    l = [l.headD ""] := by
  cases l with
  | nil => simp at h
  | cons a t =>
    cases t with
    | nil => rfl
    | cons b u => simp [List.length_cons] at h

/-- Everything the validation chain of `Handle` guarantees about an
accepted pair. -/
theorem handleValidate_ok (cfg : ReceiverCfg) (req : HandleRequest) (s t : GoURL)
    (h : handleValidate cfg req = .ok (s, t)) :
    req.method = "POST" ∧ req.parseFormOk = true ∧
    ∃ s0 t0, formGet req.form "source" = some [s0] ∧
      formGet req.form "target" = some [t0] ∧ s0 ≠ t0 ∧
      goUrlParse s0 = .ok s ∧ goUrlParse t0 = .ok t ∧
      (s.scheme = "http" ∨ s.scheme = "https") ∧
      (t.scheme = "http" ∨ t.scheme = "https") ∧
      cfg.targetAccepts s t = true := by
  unfold handleValidate at h
  split at h
  · exact Except.noConfusion h
  next hmethod =>
  split at h
  · exact Except.noConfusion h
  next hform =>
  split at h
  · exact Except.noConfusion h
  next source hsrc =>
  split at h
  · exact Except.noConfusion h
  next target htgt =>
  split at h
  · exact Except.noConfusion h
  next hlen1 =>
  split at h
  · exact Except.noConfusion h
  next hlen2 =>
  split at h
  · exact Except.noConfusion h
  next hne =>
  split at h
  · exact Except.noConfusion h
  next sourceURL hps =>
  split at h
  · exact Except.noConfusion h
  next targetURL hpt =>
  split at h
  · exact Except.noConfusion h
  next hsch1 =>
  split at h
  · exact Except.noConfusion h
  next hsch2 =>
  split at h
  · exact Except.noConfusion h
  next hacc =>
  simp only [Except.ok.injEq, Prod.mk.injEq] at h
  obtain ⟨rfl, rfl⟩ := h
  refine ⟨by simpa using hmethod, by simpa using hform,
    source.headD "", target.headD "", ?_, ?_, by simpa using hne, hps, hpt,
    or_iff_not_imp_left.mpr (by simpa using hsch1),
    or_iff_not_imp_left.mpr (by simpa using hsch2), by simpa using hacc⟩
  · rw [hsrc]
    exact congrArg some (eq_singleton_of_length_one source hlen1)
  · rw [htgt]
    exact congrArg some (eq_singleton_of_length_one target hlen2)

/-- The validation chain never produces the `accepted` outcome as an error.
-/
theorem handleValidate_error_ne_accepted (cfg : ReceiverCfg) (req : HandleRequest)
    (o : HandleOutcome) (h : handleValidate cfg req = .error o) :
    o ≠ .accepted := by
  unfold handleValidate at h
  repeat' split at h
  all_goals
    first
      | exact Except.noConfusion h
      | (injection h with h'
         subst h'
         simp)

/-- `Handle` does exactly one of three things: reject during validation
without touching the queue, enqueue and answer `202`, or find the queue full
and answer `429` without touching the queue. -/
theorem handle_cases (cfg : ReceiverCfg) (req : HandleRequest) (q : List Mention) :
    (∃ o, handleValidate cfg req = .error o ∧ o ≠ .accepted ∧
        handle cfg req q = (o, q)) ∨
    (∃ s t, handleValidate cfg req = .ok (s, t) ∧
      ((q.length < cfg.queueCap ∧
          handle cfg req q = (.accepted, q ++ [⟨s, t, statusNoLink⟩])) ∨
       (cfg.queueCap ≤ q.length ∧
          handle cfg req q = (.tooManyRequests, q)))) := by
  unfold handle
  rcases hv : handleValidate cfg req with o | ⟨s, t⟩
  · exact Or.inl ⟨o, rfl, handleValidate_error_ne_accepted cfg req o hv, rfl⟩
  · right
    refine ⟨s, t, rfl, ?_⟩
    by_cases hq : q.length < cfg.queueCap
    · exact Or.inl ⟨hq, by simp [hq]⟩
    · exact Or.inr ⟨by omega, by simp [hq]⟩

theorem append_singleton_ne (q : List Mention) (m : Mention) : q ++ [m] ≠ q := by
  intro h
  have := congrArg List.length h
  simp at this

theorem foldl_append_singleton (l acc : List String) :
    l.foldl (fun hs mime => hs ++ [mime]) acc = acc ++ l := by
  induction l generalizing acc with
  | nil => simp
  | cons a rest ih =>
    simp only [List.foldl_cons]
    rw [ih]
    simp

theorem buildAcceptHeader_eq (ord : List String) : buildAcceptHeader ord = ord := by
  rw [buildAcceptHeader, foldl_append_singleton, List.nil_append]

theorem mem_keys_iff_any (m : List (String × α)) (k : String) :
    k ∈ mapKeys m ↔ m.any (·.1 = k) = true := by
  unfold mapKeys
  rw [List.mem_map, List.any_eq_true]
  constructor
  · rintro ⟨x, hx, hxe⟩
    exact ⟨x, hx, by simpa using hxe⟩
  · rintro ⟨x, hx, hxe⟩
    exact ⟨x, hx, by simpa using hxe⟩

theorem mapKeys_mapAssign (m : List (String × α)) (k : String) (v : α) :
    mapKeys (mapAssign m k v) =
      if k ∈ mapKeys m then mapKeys m else mapKeys m ++ [k] := by
  by_cases h : m.any (·.1 = k) = true
  · rw [if_pos ((mem_keys_iff_any m k).mpr h)]
    unfold mapAssign
    rw [if_pos h]
    unfold mapKeys
    rw [List.map_map]
    apply List.map_congr_left
    intro p _
    by_cases hp : p.1 = k
    · simp [hp]
    · simp [hp]
  · rw [if_neg (fun hmem => h ((mem_keys_iff_any m k).mp hmem))]
    unfold mapAssign
    rw [if_neg h]
    simp [mapKeys]

theorem find?_append_of_none (p : String × α → Bool) (l1 l2 : List (String × α))
    (h : ∀ x ∈ l1, p x = false) :
    (l1 ++ l2).find? p = l2.find? p := by
  induction l1 with
  | nil => simp
  | cons a rest ih =>
    have ha := h a (by simp)
    simp only [List.cons_append, List.find?]
    rw [ha]
    exact ih (fun x hx => h x (by simp [hx]))

theorem mapLookup_mapAssign_self (m : List (String × α)) (k : String) (v : α) :
    mapLookup (mapAssign m k v) k = some v := by
  unfold mapAssign
  by_cases h : m.any (·.1 = k) = true
  · rw [if_pos h]
    induction m with
    | nil => simp at h
    | cons a rest ih =>
      by_cases ha : a.1 = k
      · simp [mapLookup, List.find?, ha]
      · have hrest : rest.any (·.1 = k) = true := by
          simpa [List.any_cons, ha] using h
        have := ih hrest
        simpa [mapLookup, List.find?, ha] using this
  · rw [if_neg h]
    unfold mapLookup
    rw [find?_append_of_none _ m _ ?_]
    · simp [List.find?]
    · intro x hx
      by_contra hc
      apply h
      rw [List.any_eq_true]
      refine ⟨x, hx, ?_⟩
      simpa using hc

theorem mapLookup_mapDelete_self (m : List (String × α)) (k : String) :
    mapLookup (mapDelete m k) k = none := by
  unfold mapDelete mapLookup
  induction m with
  | nil => simp
  | cons a rest ih =>
    by_cases ha : a.1 = k
    · simp only [List.filter, ha]
      simp only [decide_not, decide_eq_true_eq] at ih ⊢
      simp [ih]
    · simp only [List.filter]
      rw [show (decide ¬a.1 = k) = true by simp [ha]]
      simp only [List.find?]
      rw [show (decide (a.1 = k)) = false by simp [ha]]
      exact ih

theorem string_mk_toList (s : String) : String.mk s.toList = s := rfl

/-! ## Concrete fixtures used by the claim theorems -/

/-- `https://example.com/post` -/
def urlPost : GoURL := ⟨"https", "", "example.com", "/post", false, "", ""⟩

/-- A parsed document carrying `<a rel=webmention href="/bad">` **before**
`<link rel=webmention href="/good">`. -/
def docBothAFirst : HNode :=
  .mk .document "" []
    [.mk .element "html" []
      [.mk .element "body" []
        [ .mk .element "a" [⟨"rel", "webmention"⟩, ⟨"href", "/bad"⟩] []
        , .mk .element "link" [⟨"rel", "webmention"⟩, ⟨"href", "/good"⟩] [] ]]]

/-- `HEAD` 200 with no `Link` header, `GET` 200 with `docBothAFirst`. -/
def worldBothAFirst : DiscoveryWorld := ⟨⟨200, [], urlPost⟩, ⟨200, docBothAFirst⟩⟩

/-- `http://a.example/page`, the original discovery target. -/
def urlPageA : GoURL := ⟨"http", "", "a.example", "/page", false, "", ""⟩

/-- `http://b.example/page`, the URL reached after redirects. -/
def urlPageB : GoURL := ⟨"http", "", "b.example", "/page", false, "", ""⟩

def emptyDoc : HNode := .mk .document "" [] []

/-- The target redirects to `urlPageB`, whose response carries
`Link: </wm>; rel=webmention`. -/
def worldRedirected : DiscoveryWorld :=
  ⟨⟨200, [⟨"/wm", "webmention"⟩], urlPageB⟩, ⟨200, emptyDoc⟩⟩

/-- The relative reference `/wm` as `url.Parse` produces it. -/
def refWm : GoURL := ⟨"", "", "", "/wm", false, "", ""⟩

/-- The empty relative reference, `url.Parse("")`. -/
def refEmpty : GoURL := ⟨"", "", "", "", false, "", ""⟩

def pastT1 : GoURL := ⟨"http", "", "example.org", "/t1", false, "", ""⟩

def cfgAcceptAll : ReceiverCfg := ⟨fun _ _ => true, 100⟩

def cfgAcceptAllFull : ReceiverCfg := ⟨fun _ _ => true, 0⟩

/-- A POST whose `source` differs from `target` only in the case of the
scheme. -/
def reqCaseScheme : HandleRequest :=
  ⟨"POST", true,
    [("source", ["HTTP://example.com/a"]), ("target", ["http://example.com/a"])]⟩

/-- What both form values of `reqCaseScheme` parse to. -/
def urlExA : GoURL := ⟨"http", "", "example.com", "/a", false, "", ""⟩

def urlSrc : GoURL := ⟨"http", "", "s.example", "/post", false, "", ""⟩

def urlTgt : GoURL := ⟨"http", "", "t.example", "/page", false, "", ""⟩

def mSrcTgt : Mention := ⟨urlSrc, urlTgt, statusNoLink⟩

def bodyUnread : SourceBody := ⟨"", .error "body never fetched"⟩

def wGone : WorkerWorld SourceBody := ⟨⟨410, "text/html"⟩, bodyUnread⟩

def w404 : WorkerWorld SourceBody := ⟨⟨404, "text/html"⟩, bodyUnread⟩

def w300 : WorkerWorld SourceBody :=
  ⟨⟨300, "text/plain"⟩, ⟨"nothing relevant here", .error "unused"⟩⟩

/-- `<head><link href="" rel="webmention"></head>` (webmention.rocks test
15: empty `href`). -/
def docEmptyHref : HNode :=
  .mk .document "" []
    [.mk .element "html" []
      [.mk .element "head" []
        [.mk .element "link" [⟨"href", ""⟩, ⟨"rel", "webmention"⟩] []]]]

def worldEmptyHref (t : GoURL) : DiscoveryWorld := ⟨⟨200, [], t⟩, ⟨200, docEmptyHref⟩⟩

/-- `http://example.com/a/../b`: a target whose path carries a dot segment.
-/
def urlDotPath : GoURL := ⟨"http", "", "example.com", "/a/../b", false, "", ""⟩

def urlEndpointWm : GoURL := ⟨"https", "", "example.com", "/wm", false, "", ""⟩

/-- A `Mention` call whose `PostForm` fails at the transport level. -/
def mentionWorldDown : MentionWorld := ⟨.ok urlEndpointWm, none⟩

/-! ## The claims -/

/-- C1, as stated, is false on the code: on a document carrying the
webmention `<a href="/bad">` before the webmention `<link href="/good">`,
`DiscoverEndpoint` returns the `<a>`'s URL, not the `<link>`'s — the
traversal stops at the first matching element of either kind
(`firstARel = url; return false` aborts the whole walk). -/
theorem c1_counterexample :
    goUrlParse "/good" = .ok ⟨"", "", "", "/good", false, "", ""⟩ ∧
    discoverEndpoint worldBothAFirst urlPost =
      .ok (resolveReference urlPost ⟨"", "", "", "/bad", false, "", ""⟩) ∧
    discoverEndpoint worldBothAFirst urlPost ≠
      .ok (resolveReference urlPost ⟨"", "", "", "/good", false, "", ""⟩) := by
  refine ⟨by decide, by decide, by decide⟩

/-- C1 (amended): when the `HEAD` succeeds without a webmention `Link`
header and the `GET` succeeds, `DiscoverEndpoint` returns the resolved URL
of the **first** element in depth-first pre-order carrying
`rel=webmention` and an `href` — whether it is a `<link>` or an `<a>`; in
particular an `<a>` that precedes the `<link>` wins. -/
theorem c1_first_in_document_order (w : DiscoveryWorld) (t : GoURL)
    (dat : String) (u : GoURL)
    (hh1 : 200 ≤ w.head.status) (hh2 : w.head.status < 300)
    (hlink : foundLinkOf w.head.links = "")
    (hg1 : 200 ≤ w.get.status) (hg2 : w.get.status < 300)
    (hf : findFirstHit w.get.doc = some (dat, .okU u)) :
    discoverEndpoint w t = .ok (resolveReference t u) :=
  discover_firstHit w t dat u hh1 hh2 hlink hg1 hg2 hf

theorem c1_witness :
    discoverEndpoint worldBothAFirst urlPost =
      .ok (resolveReference urlPost ⟨"", "", "", "/bad", false, "", ""⟩) :=
  c1_first_in_document_order worldBothAFirst urlPost "a"
    ⟨"", "", "", "/bad", false, "", ""⟩
    (by decide) (by decide) (by decide) (by decide) (by decide) (by decide)

/-- C2, as stated, is false on the code: with the target redirected from
`a.example` to `b.example` and a relative `Link: </wm>; rel=webmention` on
the final response, `DiscoverEndpoint` resolves `/wm` against the original
`target` argument (`a.example`), not against the URL reached after
redirects (`b.example`) — the code never reads `resp.Request.URL`. -/
theorem c2_counterexample :
    discoverEndpoint worldRedirected urlPageA =
      .ok ⟨"http", "", "a.example", "/wm", false, "", ""⟩ ∧
    resolveReference worldRedirected.head.finalURL refWm =
      ⟨"http", "", "b.example", "/wm", false, "", ""⟩ ∧
    discoverEndpoint worldRedirected urlPageA ≠
      .ok (resolveReference worldRedirected.head.finalURL refWm) := by
  refine ⟨by decide, by decide, by decide⟩

/-- C2 (amended): every endpoint found — from the `Link` header or from the
document — is resolved against the original `target` argument; the
post-redirect URL of the world is never consulted. -/
theorem c2_resolves_against_argument :
    (∀ (w : DiscoveryWorld) (t ep : GoURL),
      200 ≤ w.head.status → w.head.status < 300 →
      foundLinkOf w.head.links ≠ "" →
      goUrlParse (foundLinkOf w.head.links) = .ok ep →
      discoverEndpoint w t = .ok (resolveReference t ep)) ∧
    (∀ (w : DiscoveryWorld) (t : GoURL) (dat : String) (u : GoURL),
      200 ≤ w.head.status → w.head.status < 300 →
      foundLinkOf w.head.links = "" →
      200 ≤ w.get.status → w.get.status < 300 →
      findFirstHit w.get.doc = some (dat, .okU u) →
      discoverEndpoint w t = .ok (resolveReference t u)) :=
  ⟨fun w t ep h1 h2 h3 h4 => discover_linkHeader w t ep h1 h2 h3 h4,
   fun w t dat u h1 h2 h3 h4 h5 h6 => discover_firstHit w t dat u h1 h2 h3 h4 h5 h6⟩

theorem c2_witness :
    discoverEndpoint worldRedirected urlPageA =
      .ok (resolveReference urlPageA refWm) :=
  c2_resolves_against_argument.1 worldRedirected urlPageA refWm
    (by decide) (by decide) (by decide) (by decide)

/-- C3: the cited `Sender.PastTargets` writes the persister's targets into
its named return `pastTargets map[URL]struct{}`, which is never allocated
and so stays the nil map — the first write panics.  `Update` calls
`PastTargets` before anything else, so no ordered union is ever handed to
`MentionMany` when any past target exists. -/
theorem c3_pastTargets_panics :
    pastTargetsRun [pastT1] = .error .nilMapWrite ∧ pastTargetsRun [] = .ok [] := by
  refine ⟨by decide, by decide⟩

/-- C4, as stated, is false on the code: the ingress check compares the raw
form **strings** (`source[0] == target[0]`), and `url.Parse` lower-cases the
scheme, so `source=HTTP://example.com/a` and `target=http://example.com/a`
pass every check yet parse to the **same** URL; the enqueued mention, later
fanned out by the worker (here after a `410`), has `source = target`. -/
theorem c4_counterexample :
    handle cfgAcceptAll reqCaseScheme [] =
      (.accepted, [⟨urlExA, urlExA, statusNoLink⟩]) ∧
    notifyAll [0] (processMention defaultRegistryFns wGone ⟨urlExA, urlExA, statusNoLink⟩) =
      [(0, ⟨urlExA, urlExA, statusDeleted⟩)] ∧
    (⟨urlExA, urlExA, statusDeleted⟩ : Mention).source =
      (⟨urlExA, urlExA, statusDeleted⟩ : Mention).target := by
  refine ⟨by decide, by decide, by decide⟩

/-- C4 (amended): for every mention the receiver enqueues (and hence for
every mention a notifier sees), the raw `source` and `target` form strings
differ and both parsed URLs have scheme `http` or `https`; the worker
changes only the status, never source or target.  The parsed URLs
themselves may coincide when the raw strings differ only in, e.g., scheme
case. -/
theorem c4_ingress_invariant :
    (∀ (cfg : ReceiverCfg) (req : HandleRequest) (q : List Mention) (m : Mention),
      handle cfg req q = (.accepted, q ++ [m]) →
      (∃ s0 t0, formGet req.form "source" = some [s0] ∧
        formGet req.form "target" = some [t0] ∧ s0 ≠ t0 ∧
        goUrlParse s0 = .ok m.source ∧ goUrlParse t0 = .ok m.target) ∧
      (m.source.scheme = "http" ∨ m.source.scheme = "https") ∧
      (m.target.scheme = "http" ∨ m.target.scheme = "https") ∧
      m.status = statusNoLink) ∧
    (∀ (σ : Type) (registry : List (String × MHandler σ)) (w : WorkerWorld σ)
      (m m' : Mention), (processMention registry w m).fanout = some m' →
      m'.source = m.source ∧ m'.target = m.target) := by
  constructor
  · intro cfg req q m h
    rcases handle_cases cfg req q with ⟨o, hv, hno, hh⟩ | ⟨s, t, hv, ⟨hq, hh⟩ | ⟨hq, hh⟩⟩
    · rw [hh] at h
      exact absurd (congrArg Prod.fst h) (by simpa using hno)
    · rw [hh] at h
      have h2 := congrArg Prod.snd h
      simp only at h2
      have hm : (⟨s, t, statusNoLink⟩ : Mention) = m := by
        have := List.append_cancel_left h2
        simpa using this
      obtain ⟨-, -, s0, t0, hs0, ht0, hne, hps, hpt, hsc1, hsc2, -⟩ :=
        handleValidate_ok cfg req s t hv
      subst hm
      exact ⟨⟨s0, t0, hs0, ht0, hne, hps, hpt⟩, hsc1, hsc2, rfl⟩
    · rw [hh] at h
      exact absurd (congrArg Prod.fst h) (by simp)
  · intro σ registry w m m' h
    unfold processMention at h
    repeat' split at h
    all_goals simp_all
    all_goals (obtain ⟨rfl⟩ := h; exact ⟨rfl, rfl⟩)

theorem c4_witness :
    (∃ s0 t0, formGet reqCaseScheme.form "source" = some [s0] ∧
      formGet reqCaseScheme.form "target" = some [t0] ∧ s0 ≠ t0 ∧
      goUrlParse s0 = .ok (⟨urlExA, urlExA, statusNoLink⟩ : Mention).source ∧
      goUrlParse t0 = .ok (⟨urlExA, urlExA, statusNoLink⟩ : Mention).target) ∧
    ((⟨urlExA, urlExA, statusNoLink⟩ : Mention).source.scheme = "http" ∨
      (⟨urlExA, urlExA, statusNoLink⟩ : Mention).source.scheme = "https") ∧
    ((⟨urlExA, urlExA, statusNoLink⟩ : Mention).target.scheme = "http" ∨
      (⟨urlExA, urlExA, statusNoLink⟩ : Mention).target.scheme = "https") ∧
    (⟨urlExA, urlExA, statusNoLink⟩ : Mention).status = statusNoLink :=
  c4_ingress_invariant.1 cfgAcceptAll reqCaseScheme [] ⟨urlExA, urlExA, statusNoLink⟩
    (by decide)

/-- C5: a mention is enqueued iff `Handle` answers `202 Accepted`; with the
queue at capacity the non-blocking enqueue fails and `Handle` returns
`TooManyRequests` (429) leaving the queue untouched; any outcome other than
`202` leaves the queue exactly as it was (so nothing new can ever be
dequeued and notified for such a request). -/
theorem c5_enqueue_iff_accepted (cfg : ReceiverCfg) (req : HandleRequest)
    (q : List Mention) :
    (httpStatusOf (handle cfg req q).1 = 202 ↔ (handle cfg req q).2 ≠ q) ∧
    ((handle cfg req q).1 = .accepted → ∃ m, (handle cfg req q).2 = q ++ [m]) ∧
    ((handle cfg req q).1 ≠ .accepted → (handle cfg req q).2 = q) ∧
    (∀ s t, handleValidate cfg req = .ok (s, t) → cfg.queueCap ≤ q.length →
      handle cfg req q = (.tooManyRequests, q) ∧
      httpStatusOf (handle cfg req q).1 = 429) := by
  have h202 : ∀ o : HandleOutcome, httpStatusOf o = 202 ↔ o = .accepted := by
    intro o
    cases o <;> simp [httpStatusOf]
  rcases handle_cases cfg req q with ⟨o, hv, hno, hh⟩ | ⟨s, t, hv, ⟨hq, hh⟩ | ⟨hq, hh⟩⟩
  · rw [hh]
    refine ⟨by simp [h202, hno], by simp [hno], by simp, ?_⟩
    intro s t hv' _
    rw [hv] at hv'
    exact Except.noConfusion hv'
  · rw [hh]
    refine ⟨by simp [h202, append_singleton_ne q _], fun _ => ⟨_, rfl⟩, by simp, ?_⟩
    intro s' t' _ hcap
    omega
  · rw [hh]
    refine ⟨by simp [h202], by simp, by simp, ?_⟩
    intro s' t' _ _
    exact ⟨rfl, rfl⟩

theorem c5_witness :
    handle cfgAcceptAllFull reqCaseScheme [] = (.tooManyRequests, []) ∧
    httpStatusOf (handle cfgAcceptAllFull reqCaseScheme []).1 = 429 :=
  (c5_enqueue_iff_accepted cfgAcceptAllFull reqCaseScheme []).2.2.2 urlExA urlExA
    (by decide) (by decide)

/-- C6: when the `HEAD` on the source answers `410`, the worker sets the
status to `Deleted`, fans the mention out to every registered notifier in
registration order, issues no `GET`, and returns no error. -/
theorem c6_deleted (σ : Type) (registry : List (String × MHandler σ))
    (w : WorkerWorld σ) (m : Mention) (notifiers : List Nat)
    (h410 : w.head.status = 410) :
    processMention registry w m =
      ⟨some { m with status := statusDeleted }, false, none⟩ ∧
    notifyAll notifiers (processMention registry w m) =
      notifiers.map (fun n => (n, { m with status := statusDeleted })) := by
  have hp : processMention registry w m =
      ⟨some { m with status := statusDeleted }, false, none⟩ := by
    unfold processMention
    rw [if_pos h410]
  refine ⟨hp, ?_⟩
  rw [hp]
  rfl

theorem c6_witness :
    processMention defaultRegistryFns wGone mSrcTgt =
      ⟨some { mSrcTgt with status := statusDeleted }, false, none⟩ ∧
    notifyAll [0, 1] (processMention defaultRegistryFns wGone mSrcTgt) =
      [0, 1].map (fun n => (n, { mSrcTgt with status := statusDeleted })) :=
  c6_deleted SourceBody defaultRegistryFns wGone mSrcTgt [0, 1] rfl

/-- C7, as stated, is false on the code: the range check is
`< 200 || > 300`, so a `HEAD` status of exactly `300` is **not** treated as
`SourceNotFound` — the worker goes on to media-type dispatch, issues the
`GET`, and (here) fans the mention out to the notifiers. -/
theorem c7_counterexample :
    processMention defaultRegistryFns w300 mSrcTgt =
      ⟨some { mSrcTgt with status := statusNoLink }, true, none⟩ ∧
    (processMention defaultRegistryFns w300 mSrcTgt).ret ≠ some .sourceNotFound ∧
    (processMention defaultRegistryFns w300 mSrcTgt).fanout ≠ none := by
  refine ⟨by decide, by decide, by decide⟩

/-- C7 (amended): when the `HEAD` status lies outside `[200,300]` — i.e.
below 200 or strictly above 300 — and differs from 410, the worker returns
`ErrSourceNotFound` (which `ProcessMentions` hands to the `Report` error
reporter), issues no `GET`, and invokes no notifier.  Status exactly 300 is
accepted by the code's `< 200 || > 300` check. -/
theorem c7_source_not_found (σ : Type) (registry : List (String × MHandler σ))
    (w : WorkerWorld σ) (m : Mention) (notifiers : List Nat)
    (hrange : w.head.status < 200 ∨ 300 < w.head.status)
    (h410 : w.head.status ≠ 410) :
    processMention registry w m = ⟨none, false, some .sourceNotFound⟩ ∧
    notifyAll notifiers (processMention registry w m) = [] := by
  have hp : processMention registry w m = ⟨none, false, some .sourceNotFound⟩ := by
    unfold processMention
    rw [if_neg h410, if_pos hrange]
  refine ⟨hp, ?_⟩
  rw [hp]
  rfl

theorem c7_witness :
    processMention defaultRegistryFns w404 mSrcTgt =
      ⟨none, false, some .sourceNotFound⟩ ∧
    notifyAll [0] (processMention defaultRegistryFns w404 mSrcTgt) = [] :=
  c7_source_not_found SourceBody defaultRegistryFns w404 mSrcTgt [0]
    (by decide) (by decide)

/-- C8, as stated, is false on the code: `DiscoverEndpoint` does succeed on
an empty `href=""` and resolves it against the target, but Go's
`ResolveReference` cleans dot segments of the base path even for the empty
reference, so for the target `http://example.com/a/../b` the result is
`http://example.com/b`, not the target itself. -/
theorem c8_counterexample :
    discoverEndpoint (worldEmptyHref urlDotPath) urlDotPath =
      .ok ⟨"http", "", "example.com", "/b", false, "", ""⟩ ∧
    discoverEndpoint (worldEmptyHref urlDotPath) urlDotPath ≠ .ok urlDotPath := by
  refine ⟨by decide, by decide⟩

/-- C8 (amended): when discovery selects an element whose `href` is the
empty string (which `url.Parse` accepts as the empty relative reference),
`DiscoverEndpoint` succeeds and returns the target with its path cleaned of
dot segments; for every target with `Opaque` empty, no `ForceQuery`, and a
path that is empty or absolute without `.`/`..` segments, that is exactly
the target itself. -/
theorem c8_empty_href_identity (w : DiscoveryWorld) (t : GoURL) (dat : String)
    (hh1 : 200 ≤ w.head.status) (hh2 : w.head.status < 300)
    (hlink : foundLinkOf w.head.links = "")
    (hg1 : 200 ≤ w.get.status) (hg2 : w.get.status < 300)
    (hf : findFirstHit w.get.doc = some (dat, .okU refEmpty))
    (hopq : t.opq = "") (hfq : t.forceQuery = false)
    (hpath : t.path.toList = [] ∨ (t.path.toList.head? = some '/' ∧
      ∀ s ∈ splitChar '/' t.path.toList, s ≠ ['.'] ∧ s ≠ ['.', '.'])) :
    discoverEndpoint w t = .ok t := by
  have h1 := discover_firstHit w t dat refEmpty hh1 hh2 hlink hg1 hg2 hf
  rw [show resolveReference t refEmpty =
        ⟨t.scheme, "", t.host, resolvePath t.path "", false, t.rawQuery, t.fragment⟩
      from resolveReference_empty t] at h1
  have hpp : resolvePath t.path "" = t.path := by
    unfold resolvePath
    rw [show ("" : String).toList = [] from rfl, resolvePathList_self _ hpath]
    exact string_mk_toList t.path
  rw [hpp] at h1
  rw [h1]
  cases t with
  | mk s o h p fq rq fr =>
    simp only at hopq hfq
    rw [hopq, hfq]

theorem c8_witness :
    discoverEndpoint (worldEmptyHref urlPageA) urlPageA = .ok urlPageA :=
  c8_empty_href_identity (worldEmptyHref urlPageA) urlPageA "link"
    (by decide) (by decide) (by decide) (by decide) (by decide) (by decide)
    (by decide) (by decide) (by decide)

/-- C9, as stated, is false on the code: the registry is a Go
`map[string]MediaHandler`, whose `range` order is arbitrary — the order
`["text/plain", "text/html"]` is admissible although the entries were
inserted as `text/html` then `text/plain` — and the `Accept` values built
from it are the bare media types: no rendered value ever carries the
`;q=` parameter the spec's q-weighted rendering prescribes for
`text/plain` (q=0.1). -/
theorem c9_counterexample :
    admissibleOrder defaultMediaHandlers ["text/plain", "text/html"] ∧
    mapKeys defaultMediaHandlers = ["text/html", "text/plain"] ∧
    buildAcceptHeader ["text/plain", "text/html"] ≠ ["text/html", "text/plain"] ∧
    specAcceptRender specDefaultEntries = ["text/html", "text/plain;q=0.1"] ∧
    (buildAcceptHeader ["text/plain", "text/html"]).all
      (fun v => !(v.toList.contains ';')) = true ∧
    (buildAcceptHeader ["text/html", "text/plain"]).all
      (fun v => !(v.toList.contains ';')) = true := by
  refine ⟨by decide, by decide, by decide, by decide, by decide, by decide⟩

/-- C9 (amended): the registry is an unordered map keyed by media type —
`WithMediaHandler` replaces the handler of an existing type in place or
adds a new one (`nil` removes it), lookup is by exact key — and for any
admissible iteration order the `HEAD` `Accept` values are exactly the
registered media types, bare, with no `;q=` parameter. -/
theorem c9_registry_unordered :
    (∀ ord : List String, admissibleOrder defaultMediaHandlers ord →
      (buildAcceptHeader ord).Perm (mapKeys defaultMediaHandlers) ∧
      ∀ v ∈ buildAcceptHeader ord, v.toList.contains ';' = false) ∧
    mapLookup defaultMediaHandlers "text/html" = some .htmlH ∧
    mapLookup defaultMediaHandlers "text/plain" = some .plainH ∧
    (∀ (m : List (String × HandlerTag)) (mime : String) (h : HandlerTag),
      mapLookup (withMediaHandler mime (some h) m) mime = some h) ∧
    (∀ (m : List (String × HandlerTag)) (mime : String),
      mapLookup (withMediaHandler mime none m) mime = none) ∧
    (∀ (m : List (String × HandlerTag)) (mime : String) (h : HandlerTag),
      mapKeys (withMediaHandler mime (some h) m) =
        if mime ∈ mapKeys m then mapKeys m else mapKeys m ++ [mime]) := by
  refine ⟨?_, by decide, by decide, ?_, ?_, ?_⟩
  · intro ord hperm
    rw [buildAcceptHeader_eq]
    refine ⟨hperm.symm, ?_⟩
    intro v hv
    have hvmem : v ∈ mapKeys defaultMediaHandlers := hperm.mem_iff.mpr hv
    have hvv : v = "text/html" ∨ v = "text/plain" := by
      simpa [defaultMediaHandlers, mapKeys] using hvmem
    rcases hvv with rfl | rfl <;> decide
  · exact fun m mime h => mapLookup_mapAssign_self m mime h
  · exact fun m mime => mapLookup_mapDelete_self m mime
  · exact fun m mime h => mapKeys_mapAssign m mime h

theorem c9_witness :
    (buildAcceptHeader ["text/plain", "text/html"]).Perm
      (mapKeys defaultMediaHandlers) ∧
    ∀ v ∈ buildAcceptHeader ["text/plain", "text/html"],
      v.toList.contains ';' = false :=
  c9_registry_unordered.1 ["text/plain", "text/html"] (by decide)

/-- C10: when `DiscoverEndpoint` succeeds but the `PostForm` fails at the
transport level (non-nil error, nil response), `Sender.Mention` neither
checks the error nor the response: it dereferences the nil response and
panics instead of returning any error. -/
theorem c10_transport_panics (w : MentionWorld) (ep : GoURL)
    (hd : w.discover = .ok ep) (hp : w.postForm = none) :
    senderMention w = .panicked ∧
    (∀ e, senderMention w ≠ .discoverFailed e) ∧
    (∀ s, senderMention w ≠ .sendFailed s) ∧
    senderMention w ≠ .ok := by
  have h : senderMention w = .panicked := by
    unfold senderMention
    rw [hd, hp]
  refine ⟨h, fun e => by rw [h]; simp, fun s => by rw [h]; simp, by rw [h]; simp⟩

theorem c10_witness : senderMention mentionWorldDown = .panicked :=
  (c10_transport_panics mentionWorldDown urlEndpointWm rfl rfl).1

end Webmention
